import Mathlib

/-!
Verification of the `lemma` tensor library (`src/tensor.rs`, `src/lib.rs`).

The library provides a fixed-rank dense tensor: a shape `Dim<N> = [usize; N]`
(embedded here as `Fin N → Nat`), a contiguous storage buffer `Box<[T]>`
(embedded as `List α`), row-major coordinate-to-offset indexing, construction
with default (zero) fill, deep copy, and elementwise addition operators
(tensor + tensor and tensor + scalar, in place and by value, by value and by
reference).  Panics are embedded as `Except.error` / `Option.none`; the
in-place tensor + tensor addition returns its outcome paired with the state of
the left operand at the instant the operation ends (normally or by panic),
mirroring the source's order of operations: the shape check loop runs to
completion before the first element is written.
-/

/-- Rust `type Idx = usize`.  Overflow is not modelled: all extents and
coordinates in the claims are far below `2^64`. -/
abbrev Idx := Nat

/-- Rust `type Dim<const N: Idx> = [Idx; N]`: a fixed-length array of `N`
extents, one per axis. -/
abbrev Dim (N : Nat) := Fin N → Idx

/-- Rust `Dimension::index` for `Dim<N>` (`src/tensor.rs:31-41`):
`ind.iter().enumerate().fold(0, |sum, d| { let itr = d.0 + 1;
let prod = self[itr..].iter().fold(1, |prod, d| prod * d); sum + prod * d.1 })`.
The slice `self[itr..]` holds the extents at positions strictly after `d.0`,
i.e. the axes `j` with `d.0 < j`. -/
def Dim.index {N : Nat} (self ind : Dim N) : Idx :=
  (List.finRange N).foldl
    (fun sum i =>
      sum + ((List.finRange N).filter (fun j => i < j)).foldl
              (fun prod j => prod * self j) 1 * ind i)
    0

/-- Rust `Dimension::size` for `Dim<N>` (`src/tensor.rs:43-47`):
`self.iter().fold(1, |prod, d| prod * d)`. -/
def Dim.size {N : Nat} (self : Dim N) : Idx :=
  (List.finRange N).foldl (fun prod i => prod * self i) 1

/-- Rust `struct Tensor<T: Scalar, const N: Idx> { data: Box<[T]>, dim: Dim<N> }`
(`src/tensor.rs:58-62`). -/
structure Tensor (α : Type) (N : Nat) where
  data : List α
  dim : Dim N

/-- Rust `Tensor::new` (`src/tensor.rs:67-72`): allocates
`vec![T::default(); dim.size()]`.  The only `Scalar` instances in the source
are `f32` and `f64`, whose `Default::default()` is `0`, so the `Default` bound
is embedded as `Zero`. -/
def Tensor.new {α : Type} [Zero α] {N : Nat} (dim : Dim N) : Tensor α N :=
  { data := List.replicate dim.size 0, dim := dim }

/-- Rust `Index<Dim<N>> for Tensor` (`src/tensor.rs:75-83`):
`&self.data[self.dim.index(ind)]`.  The offset is computed with no bounds
validation; the slice access panics when it is out of range, embedded as
`none`. -/
def Tensor.get {α : Type} {N : Nat} (self : Tensor α N) (ind : Dim N) : Option α :=
  self.data[self.dim.index ind]?

/-- Rust `IndexMut<Dim<N>> for Tensor` followed by an element assignment
(`src/tensor.rs:95-102`): `&mut self.data[self.dim.index(ind)] = v`.  The
slice access panics when the offset is out of range, embedded as `none`. -/
def Tensor.set {α : Type} {N : Nat} (self : Tensor α N) (ind : Dim N) (v : α) :
    Option (Tensor α N) :=
  if self.dim.index ind < self.data.length then
    some { self with data := self.data.set (self.dim.index ind) v }
  else
    none

/-- Rust `Clone for Tensor` (`src/tensor.rs:113-122`): allocates a fresh
default-filled tensor of the same shape with `Tensor::new(self.dim)`, then
replaces its buffer with `self.data.clone()`, a deep element-by-element copy
of the source buffer. -/
def Tensor.clone {α : Type} [Zero α] {N : Nat} (self : Tensor α N) : Tensor α N :=
  let t : Tensor α N := Tensor.new self.dim
  { t with data := self.data }

/-- The panic message of the shape-compatibility check in both
`AddAssign` impls (`src/tensor.rs:131,148`, `src/lib.rs:60`). -/
def dimMismatchMsg : String :=
  "All dimensions of two tensors must be of the same size to add them."

/-- Rust `AddAssign for Tensor` (by-value right operand,
`src/tensor.rs:124-139`).  The first loop zips the two dimension arrays and
panics with `dimMismatchMsg` on the first mismatched axis; only after that
loop completes does the second loop write `*this += other.clone()` at each
offset (`zip` truncates at the shorter buffer, as in the source).  The result
pairs the outcome with the state of the left operand when the call ends: on a
panic no element has yet been written, so that state is `self` itself. -/
def Tensor.addAssign {α : Type} [Add α] {N : Nat} (self rhs : Tensor α N) :
    Except String Unit × Tensor α N :=
  if ∀ i, self.dim i = rhs.dim i then
    (Except.ok (), { self with data := self.data.zipWith (· + ·) rhs.data })
  else
    (Except.error dimMismatchMsg, self)

/-- Rust `AddAssign<&Tensor> for Tensor` (by-reference right operand,
`src/tensor.rs:141-156`): a verbatim duplicate of the by-value impl body; the
right operand is only read. -/
def Tensor.addAssignRef {α : Type} [Add α] {N : Nat} (self rhs : Tensor α N) :
    Except String Unit × Tensor α N :=
  if ∀ i, self.dim i = rhs.dim i then
    (Except.ok (), { self with data := self.data.zipWith (· + ·) rhs.data })
  else
    (Except.error dimMismatchMsg, self)

/-- Rust `AddAssign<U> for Tensor` with `U: Operand` (`src/tensor.rs:158-165`),
covering `a += s` and `a += &s`: no shape check,
`self.data.iter_mut().for_each(|this| *this += rhs.clone())`. -/
def Tensor.addAssignScalar {α : Type} [Add α] {N : Nat} (self : Tensor α N) (rhs : α) :
    Tensor α N :=
  { self with data := self.data.map (· + rhs) }

/-- Rust `Add<T> for Tensor` (`src/tensor.rs:167-176`): `self += rhs; self`. -/
def Tensor.addScalar {α : Type} [Add α] {N : Nat} (self : Tensor α N) (rhs : α) :
    Tensor α N :=
  Tensor.addAssignScalar self rhs

/-- Rust `Add for Tensor` (both operands by value, `src/tensor.rs:178-187`):
`self += rhs; self`; a panic of the inner `add_assign` propagates. -/
def Tensor.add {α : Type} [Add α] {N : Nat} (self rhs : Tensor α N) :
    Except String (Tensor α N) :=
  match Tensor.addAssign self rhs with
  | (Except.ok _, t) => Except.ok t
  | (Except.error e, _) => Except.error e

/-- Rust `Add for &Tensor` (`&a + &b`, `src/tensor.rs:189-199`):
`let mut t = self.clone(); t += rhs; t` with `rhs` by reference. -/
def Tensor.addRefRef {α : Type} [Add α] [Zero α] {N : Nat} (self rhs : Tensor α N) :
    Except String (Tensor α N) :=
  match Tensor.addAssignRef (Tensor.clone self) rhs with
  | (Except.ok _, t) => Except.ok t
  | (Except.error e, _) => Except.error e

/-- Rust `Add<Tensor> for &Tensor` (`&a + b`, `src/tensor.rs:201-211`):
`let mut t = self.clone(); t += rhs; t` with `rhs` by value. -/
def Tensor.addRefVal {α : Type} [Add α] [Zero α] {N : Nat} (self rhs : Tensor α N) :
    Except String (Tensor α N) :=
  match Tensor.addAssign (Tensor.clone self) rhs with
  | (Except.ok _, t) => Except.ok t
  | (Except.error e, _) => Except.error e

/-- Rust `Add<&Tensor> for Tensor` (`a + &b`, `src/tensor.rs:213-223`):
`let mut t = self.clone(); t += rhs; t` with `rhs` by reference. -/
def Tensor.addValRef {α : Type} [Add α] [Zero α] {N : Nat} (self rhs : Tensor α N) :
    Except String (Tensor α N) :=
  match Tensor.addAssignRef (Tensor.clone self) rhs with
  | (Except.ok _, t) => Except.ok t
  | (Except.error e, _) => Except.error e

/-- The representation invariant of `Tensor` (spec §3): the storage holds
exactly `shape.size()` elements. -/
def Tensor.wf {α : Type} {N : Nat} (t : Tensor α N) : Prop :=
  t.data.length = t.dim.size

instance {α : Type} {N : Nat} (t : Tensor α N) : Decidable (Tensor.wf t) :=
  inferInstanceAs (Decidable (t.data.length = t.dim.size))

/-! ### Fold arithmetic: the source's folds equal the spec's sums and products -/

theorem foldl_add_eq {β : Type} (g : β → Nat) :
    ∀ (l : List β) (a : Nat), l.foldl (fun s x => s + g x) a = a + (l.map g).sum := by
  intro l
  induction l with
  | nil => intro a; simp
  | cons x l ih =>
    intro a
    simp only [List.foldl_cons, List.map_cons, List.sum_cons, ih]
    omega

theorem foldl_mul_eq {β : Type} (g : β → Nat) :
    ∀ (l : List β) (a : Nat), l.foldl (fun p x => p * g x) a = a * (l.map g).prod := by
  intro l
  induction l with
  | nil => intro a; simp
  | cons x l ih =>
    intro a
    simp only [List.foldl_cons, List.map_cons, List.prod_cons, ih]
    ring

theorem filter_map_prod {β : Type} (p : β → Prop) [DecidablePred p] (f : β → Nat) :
    ∀ l : List β, ((l.filter (fun x => p x)).map f).prod
      = (l.map fun x => if p x then f x else 1).prod := by
  intro l
  induction l with
  | nil => simp
  | cons x l ih =>
    by_cases h : p x <;> simp [List.filter_cons, h, ih]

/-- `Dimension::size` computes the product of all extents. -/
theorem Dim.size_eq {N : Nat} (self : Dim N) : Dim.size self = ∏ i, self i := by
  rw [Dim.size, foldl_mul_eq, one_mul, Fin.prod_univ_def]

/-- `Dimension::index` computes the row-major offset: the sum over all axes of
the coordinate times the product of the extents strictly to the right. -/
theorem Dim.index_eq {N : Nat} (self ind : Dim N) :
    Dim.index self ind
      = ∑ i, (∏ j in Finset.univ.filter (fun j => i < j), self j) * ind i := by
  rw [Dim.index, foldl_add_eq, Nat.zero_add, Fin.sum_univ_def]
  congr 1
  apply List.map_congr_left
  intro i _
  congr 1
  rw [foldl_mul_eq, one_mul, Finset.prod_filter, Fin.prod_univ_def, filter_map_prod]

/-- `Dim.index_eq` with the filtered product written as a product of
conditionals, the form convenient for induction on the rank. -/
theorem Dim.index_eq_ite {N : Nat} (self ind : Dim N) :
    Dim.index self ind = ∑ i, (∏ j, if i < j then self j else 1) * ind i := by
  rw [Dim.index_eq]
  simp only [Finset.prod_filter]

/-- Row-major offsets of in-bounds coordinates are strictly below the product
of the extents (pure arithmetic core, by induction on the rank). -/
theorem sum_stride_lt_prod :
    ∀ {N : Nat} (d c : Fin N → Nat), (∀ i, c i < d i) →
      (∑ i, (∏ j, if i < j then d j else 1) * c i) < ∏ i, d i := by
  intro N
  induction N with
  | zero => intro d c _; simp
  | succ n ih =>
    intro d c h
    rw [Fin.sum_univ_succ]
    conv_rhs => rw [Fin.prod_univ_succ]
    have h0 : (∏ j, if (0 : Fin (n + 1)) < j then d j else 1) = ∏ j : Fin n, d j.succ := by
      rw [Fin.prod_univ_succ]
      simp [Fin.succ_pos]
    have hsucc : ∀ i : Fin n,
        (∏ j, if (i.succ : Fin (n + 1)) < j then d j else 1)
          = ∏ j : Fin n, if i < j then d j.succ else 1 := by
      intro i
      rw [Fin.prod_univ_succ]
      simp [Fin.succ_lt_succ_iff]
    rw [h0]
    have hS : (∑ i : Fin n, (∏ j, if (i.succ : Fin (n + 1)) < j then d j else 1) * c i.succ)
        < ∏ j : Fin n, d j.succ := by
      calc (∑ i : Fin n, (∏ j, if (i.succ : Fin (n + 1)) < j then d j else 1) * c i.succ)
          = ∑ i : Fin n, (∏ j : Fin n, if i < j then d j.succ else 1) * c i.succ := by
            exact Finset.sum_congr rfl fun i _ => by rw [hsucc i]
        _ < ∏ j : Fin n, d j.succ := ih (fun j => d j.succ) (fun i => c i.succ) fun i => h i.succ
    calc (∏ j : Fin n, d j.succ) * c 0
          + ∑ i : Fin n, (∏ j, if (i.succ : Fin (n + 1)) < j then d j else 1) * c i.succ
        < (∏ j : Fin n, d j.succ) * c 0 + ∏ j : Fin n, d j.succ := Nat.add_lt_add_left hS _
      _ = (∏ j : Fin n, d j.succ) * (c 0 + 1) := by ring
      _ ≤ (∏ j : Fin n, d j.succ) * d 0 := Nat.mul_le_mul_left _ (Nat.succ_le_of_lt (h 0))
      _ = d 0 * ∏ j : Fin n, d j.succ := Nat.mul_comm _ _

/-- An in-bounds coordinate always maps to an offset strictly below the
shape's size. -/
theorem Dim.index_lt_size {N : Nat} (self ind : Dim N) (h : ∀ i, ind i < self i) :
    Dim.index self ind < Dim.size self := by
  rw [Dim.index_eq_ite, Dim.size_eq]
  exact sum_stride_lt_prod self ind h

/-! ### Shared helper lemmas about the addition operators -/

/-- The two `AddAssign` impls for a tensor right operand have identical
bodies, so the embedded functions are definitionally equal. -/
theorem Tensor.addAssignRef_eq_addAssign {α : Type} [Add α] {N : Nat}
    (a b : Tensor α N) : Tensor.addAssignRef a b = Tensor.addAssign a b := rfl

/-- `clone` rebuilds the tensor from the same buffer contents and shape. -/
theorem Tensor.clone_eq {α : Type} [Zero α] {N : Nat} (t : Tensor α N) :
    Tensor.clone t = t := rfl

/-- On shape-compatible operands, in-place tensor addition succeeds and
replaces the buffer by the elementwise sum, keeping the left shape. -/
theorem Tensor.addAssign_ok {α : Type} [Add α] {N : Nat} (a b : Tensor α N)
    (hdim : a.dim = b.dim) :
    Tensor.addAssign a b
      = (Except.ok (), ⟨a.data.zipWith (· + ·) b.data, a.dim⟩) := by
  have hcond : ∀ i, a.dim i = b.dim i := fun i => by rw [hdim]
  simp [Tensor.addAssign, hcond]

/-- Shape-compatible well-formed operands have buffers of equal length, and
the zipped sum keeps that length. -/
theorem Tensor.data_length_eq {α : Type} {N : Nat} (a b : Tensor α N)
    (hdim : a.dim = b.dim) (ha : a.wf) (hb : b.wf) :
    b.data.length = a.data.length := by
  rw [ha, hb, hdim]

theorem zipWith_add_length {α : Type} [Add α] (l₁ l₂ : List α)
    (h : l₂.length = l₁.length) :
    (l₁.zipWith (· + ·) l₂).length = l₁.length := by
  rw [List.length_zipWith, h, Nat.min_self]

theorem zipWith_add_getElem {α : Type} [Add α] (l₁ l₂ : List α) (i : Nat) (x y : α)
    (hx : l₁[i]? = some x) (hy : l₂[i]? = some y) :
    (l₁.zipWith (· + ·) l₂)[i]? = some (x + y) := by
  rw [List.getElem?_zipWith, hx, hy]

/-! ### The claims -/

/-- C1: `Dimension::index` returns the row-major linear offset: the sum over
all axes of the coordinate times that axis's stride, where the stride of axis
`i` is the product of all extents strictly to its right; in particular, for a
rank-2 shape `[r, c]`, `index([i, j])` equals `i * c + j`, and shape `[2, 4]`
with coordinate `[1, 3]` gives offset `7`. -/
theorem dim_index_row_major :
    (∀ (N : Nat) (self ind : Dim N),
      Dim.index self ind
        = ∑ i, ind i * ∏ j in Finset.univ.filter (fun j => i < j), self j)
    ∧ (∀ r c i j : Nat, Dim.index ![r, c] ![i, j] = i * c + j)
    ∧ Dim.index ![2, 4] ![1, 3] = 7 := by
  refine ⟨fun N self ind => ?_, fun r c i j => ?_, by decide⟩
  · rw [Dim.index_eq]
    exact Finset.sum_congr rfl fun i _ => Nat.mul_comm _ _
  · rw [Dim.index_eq_ite, Fin.sum_univ_two, Fin.prod_univ_two, Fin.prod_univ_two]
    simp [(by decide : ¬ (0 : Fin 2) < 0), (by decide : (0 : Fin 2) < 1),
      (by decide : ¬ (1 : Fin 2) < 0), (by decide : ¬ (1 : Fin 2) < 1)]
    ring

/-- C3: in-place tensor+tensor addition on operands whose extents differ at
some axis fails with exactly the dimension-mismatch message, and the state of
the left operand at the moment of failure is its original, unmodified state
(the shape check loop completes before any element is written); the right
operand is only read.  Both the by-value and the by-reference impl behave
identically. -/
theorem addAssign_mismatch_panics {α : Type} [Add α] {N : Nat} (a b : Tensor α N)
    (h : ∃ i, a.dim i ≠ b.dim i) :
    Tensor.addAssign a b
      = (Except.error
          "All dimensions of two tensors must be of the same size to add them.", a)
    ∧ Tensor.addAssignRef a b
      = (Except.error
          "All dimensions of two tensors must be of the same size to add them.", a) := by
  obtain ⟨i, hi⟩ := h
  have hcond : ¬ ∀ j, a.dim j = b.dim j := fun hall => hi (hall i)
  constructor
  · simp [Tensor.addAssign, hcond, dimMismatchMsg]
  · simp [Tensor.addAssignRef, hcond, dimMismatchMsg]

/-- Witness for C3: the spec's own example, a shape-`[5]` tensor plus a
shape-`[4]` tensor. -/
theorem addAssign_mismatch_panics_witness :
    Tensor.addAssign (Tensor.new (α := Int) ![5]) (Tensor.new (α := Int) ![4])
      = (Except.error
          "All dimensions of two tensors must be of the same size to add them.",
         Tensor.new (α := Int) ![5]) := by
  exact (addAssign_mismatch_panics (Tensor.new (α := Int) ![5])
    (Tensor.new (α := Int) ![4]) ⟨0, by decide⟩).1

/-- C4: `Tensor::new(s)` yields a buffer of exactly `product(s.extents)`
elements (empty product `1` at rank 0, zero elements when any extent is `0`),
every element being the scalar default (zero). -/
theorem tensor_new_default_filled {α : Type} [Zero α] :
    (∀ (N : Nat) (d : Dim N),
      (Tensor.new (α := α) d).data = List.replicate (∏ i, d i) 0
      ∧ (Tensor.new (α := α) d).data.length = ∏ i, d i
      ∧ (Tensor.new (α := α) d).dim = d)
    ∧ (∀ d : Dim 0, (Tensor.new (α := α) d).data.length = 1)
    ∧ (∀ (N : Nat) (d : Dim N) (i : Fin N), d i = 0 →
        (Tensor.new (α := α) d).data.length = 0) := by
  have hrepl : ∀ (N : Nat) (d : Dim N),
      (Tensor.new (α := α) d).data = List.replicate (∏ i, d i) 0 := by
    intro N d
    rw [Tensor.new, Dim.size_eq]
  refine ⟨fun N d => ⟨hrepl N d, ?_, rfl⟩, fun d => ?_, fun N d i h0 => ?_⟩
  · rw [hrepl N d, List.length_replicate]
  · rw [hrepl 0 d, List.length_replicate]
    simp
  · rw [hrepl N d, List.length_replicate]
    exact Finset.prod_eq_zero (Finset.mem_univ i) h0

/-- Witness for C4: a zero extent yields an empty buffer. -/
theorem tensor_new_default_filled_witness :
    ((![2, 0, 3] : Dim 3) 1 = 0)
    ∧ (Tensor.new (α := Int) ![2, 0, 3]).data.length = 0 :=
  ⟨by decide, tensor_new_default_filled.2.2 3 ![2, 0, 3] 1 (by decide)⟩

/-- C5: `clone` produces a tensor with an identical shape whose elements agree
with the source at every coordinate; the copy is independent: writing an
element of the clone yields a tensor holding the written value while the
source tensor's buffer is untouched (in this embedding buffers are values, so
no aliasing can exist, matching `Box<[T]>::clone`'s fresh allocation). -/
theorem tensor_clone_independent {α : Type} [Zero α] {N : Nat} (t : Tensor α N) :
    (Tensor.clone t).dim = t.dim
    ∧ (Tensor.clone t).data = t.data
    ∧ (∀ c : Dim N, (Tensor.clone t).get c = t.get c)
    ∧ (∀ (c : Dim N) (v : α) (u : Tensor α N),
        Tensor.set (Tensor.clone t) c v = some u →
          u.get c = some v ∧ u.dim = t.dim ∧ u.data.length = t.data.length) := by
  refine ⟨rfl, rfl, fun c => rfl, fun c v u hset => ?_⟩
  rw [Tensor.clone_eq] at hset
  rw [Tensor.set] at hset
  by_cases h : t.dim.index c < t.data.length
  · rw [if_pos h] at hset
    have h2 : ({ t with data := t.data.set (t.dim.index c) v } : Tensor α N) = u := by
      injection hset
    subst h2
    refine ⟨?_, rfl, by simp⟩
    rw [Tensor.get]
    show (t.data.set (t.dim.index c) v)[t.dim.index c]? = some v
    exact List.getElem?_set_self h
  · rw [if_neg h] at hset
    exact absurd hset (by simp)

/-- All three by-reference `Add` overloads reduce to the by-value one: `clone`
rebuilds the same value and the two `AddAssign` bodies are identical. -/
theorem addRef_forms_eq {α : Type} [Add α] [Zero α] {N : Nat} (a b : Tensor α N) :
    Tensor.addRefRef a b = Tensor.add a b
    ∧ Tensor.addRefVal a b = Tensor.add a b
    ∧ Tensor.addValRef a b = Tensor.add a b :=
  ⟨rfl, rfl, rfl⟩

/-- A successful by-value addition returns exactly the post-state of the
in-place addition. -/
theorem Tensor.add_ok_inv {α : Type} [Add α] {N : Nat} (a b r : Tensor α N)
    (h : Tensor.add a b = Except.ok r) : r = (Tensor.addAssign a b).2 := by
  cases haa : Tensor.addAssign a b with
  | mk fst snd =>
    cases fst with
    | ok u =>
      simp only [Tensor.add, haa] at h
      injection h with h2
      exact h2.symm
    | error e =>
      simp only [Tensor.add, haa] at h
      exact absurd h (by simp)

/-- The post-state of in-place tensor addition keeps the invariant and the
left operand's shape, whether the operation succeeds or panics. -/
theorem Tensor.addAssign_preserves_wf {α : Type} [Add α] {N : Nat}
    (a b : Tensor α N) (ha : a.wf) (hb : b.wf) :
    (Tensor.addAssign a b).2.wf ∧ (Tensor.addAssign a b).2.dim = a.dim := by
  rw [Tensor.addAssign]
  by_cases hcond : ∀ i, a.dim i = b.dim i
  · rw [if_pos hcond]
    refine ⟨?_, rfl⟩
    show (a.data.zipWith (· + ·) b.data).length = Dim.size a.dim
    rw [zipWith_add_length a.data b.data
      (Tensor.data_length_eq a b (funext hcond) ha hb), ha]
  · rw [if_neg hcond]
    exact ⟨ha, rfl⟩

/-- C2: on two tensors of identical shape, in-place addition succeeds and
replaces every element at linear offset `i` by `a[i] + b[i]`, and the
by-value `a + b` returns exactly that tensor, with `a`'s shape; at every
in-bounds coordinate `c` the result reads `a[c] + b[c]`. -/
theorem add_tensor_elementwise {α : Type} [Add α] {N : Nat} (a b : Tensor α N)
    (hdim : a.dim = b.dim) (ha : a.wf) (hb : b.wf) :
    ∃ r, Tensor.addAssign a b = (Except.ok (), r)
      ∧ Tensor.add a b = Except.ok r
      ∧ r.dim = a.dim
      ∧ r.data.length = a.data.length
      ∧ (∀ (i : Nat) (x y : α), a.data[i]? = some x → b.data[i]? = some y →
          r.data[i]? = some (x + y))
      ∧ (∀ c : Dim N, (∀ k, c k < a.dim k) →
          ∃ x y, a.get c = some x ∧ b.get c = some y ∧ r.get c = some (x + y)) := by
  have hlen := Tensor.data_length_eq a b hdim ha hb
  refine ⟨⟨a.data.zipWith (· + ·) b.data, a.dim⟩, Tensor.addAssign_ok a b hdim, ?_, rfl,
    zipWith_add_length a.data b.data hlen,
    fun i x y hx hy => zipWith_add_getElem _ _ _ _ _ hx hy, ?_⟩
  · rw [Tensor.add, Tensor.addAssign_ok a b hdim]
  · intro c hc
    have hoff : a.dim.index c < a.data.length := by
      rw [ha]
      exact Dim.index_lt_size a.dim c hc
    have hoffb : a.dim.index c < b.data.length := by
      rw [hlen]
      exact hoff
    have hbidx : b.dim.index c = a.dim.index c := by rw [hdim]
    refine ⟨a.data[a.dim.index c], b.data[a.dim.index c], ?_, ?_, ?_⟩
    · show a.data[a.dim.index c]? = some a.data[a.dim.index c]
      exact List.getElem?_eq_getElem hoff
    · show b.data[b.dim.index c]? = some b.data[a.dim.index c]
      rw [hbidx]
      exact List.getElem?_eq_getElem hoffb
    · show (a.data.zipWith (· + ·) b.data)[a.dim.index c]? = _
      exact zipWith_add_getElem _ _ _ _ _ (List.getElem?_eq_getElem hoff)
        (List.getElem?_eq_getElem hoffb)

/-- Witness for C2: `[1, 2, 3] + [10, 20, 30]` succeeds. -/
theorem add_tensor_elementwise_witness :
    ∃ r : Tensor Int 1,
      Tensor.addAssign (⟨[1, 2, 3], ![3]⟩ : Tensor Int 1) ⟨[10, 20, 30], ![3]⟩
        = (Except.ok (), r)
      ∧ r.data.length = 3 := by
  obtain ⟨r, h1, _, _, h4, _⟩ :=
    add_tensor_elementwise (⟨[1, 2, 3], ![3]⟩ : Tensor Int 1) ⟨[10, 20, 30], ![3]⟩
      rfl (by decide) (by decide)
  exact ⟨r, h1, h4⟩

/-- C6: in-place scalar addition needs no shape check (it is a total
function), adds `s` to every element at every linear offset, preserves the
shape, and the by-value form `a + s` returns exactly the in-place result, so
`(a + s)[c] = a[c] + s` at every in-bounds coordinate. -/
theorem add_scalar_elementwise {α : Type} [Add α] {N : Nat} (t : Tensor α N) (s : α) :
    (Tensor.addAssignScalar t s).dim = t.dim
    ∧ (Tensor.addAssignScalar t s).data.length = t.data.length
    ∧ (∀ (i : Nat) (x : α), t.data[i]? = some x →
        (Tensor.addAssignScalar t s).data[i]? = some (x + s))
    ∧ Tensor.addScalar t s = Tensor.addAssignScalar t s
    ∧ (t.wf → ∀ c : Dim N, (∀ k, c k < t.dim k) →
        ∃ x, t.get c = some x ∧ (Tensor.addScalar t s).get c = some (x + s)) := by
  refine ⟨rfl, by simp [Tensor.addAssignScalar], fun i x hx => ?_, rfl, fun hwf c hc => ?_⟩
  · show (t.data.map (· + s))[i]? = some (x + s)
    rw [List.getElem?_map, hx]
    rfl
  · have hoff : t.dim.index c < t.data.length := by
      rw [hwf]
      exact Dim.index_lt_size t.dim c hc
    refine ⟨t.data[t.dim.index c], ?_, ?_⟩
    · show t.data[t.dim.index c]? = some t.data[t.dim.index c]
      exact List.getElem?_eq_getElem hoff
    · show (t.data.map (· + s))[t.dim.index c]? = _
      rw [List.getElem?_map, List.getElem?_eq_getElem hoff]
      rfl

/-- Witness for C6: `[3, 4] + 5` at coordinate `[1]` reads `4 + 5`. -/
theorem add_scalar_elementwise_witness :
    ∃ x : Int, Tensor.get (⟨[3, 4], ![2]⟩ : Tensor Int 1) ![1] = some x
      ∧ Tensor.get (Tensor.addScalar (⟨[3, 4], ![2]⟩ : Tensor Int 1) 5) ![1]
          = some (x + 5) :=
  (add_scalar_elementwise (⟨[3, 4], ![2]⟩ : Tensor Int 1) 5).2.2.2.2 (by decide)
    ![1] (by decide)

/-- C7: the invariant `storage.length == shape.size()` is established by
construction, preserved by clone, by both in-place additions (tensor and
scalar operand) whether they succeed or panic, and by every by-value and
by-reference addition; no operation changes the shape. -/
theorem tensor_wf_invariant {α : Type} [Add α] [Zero α] {N : Nat}
    (d : Dim N) (t a b : Tensor α N) (s : α) :
    (Tensor.new (α := α) d).wf
    ∧ (Tensor.new (α := α) d).dim = d
    ∧ (t.wf → (Tensor.clone t).wf ∧ (Tensor.clone t).dim = t.dim)
    ∧ (t.wf → (Tensor.addAssignScalar t s).wf
        ∧ (Tensor.addAssignScalar t s).dim = t.dim)
    ∧ (t.wf → (Tensor.addScalar t s).wf ∧ (Tensor.addScalar t s).dim = t.dim)
    ∧ (a.wf → b.wf → (Tensor.addAssign a b).2.wf
        ∧ (Tensor.addAssign a b).2.dim = a.dim)
    ∧ (a.wf → b.wf → (Tensor.addAssignRef a b).2.wf
        ∧ (Tensor.addAssignRef a b).2.dim = a.dim)
    ∧ (a.wf → b.wf → ∀ r, Tensor.add a b = Except.ok r → r.wf ∧ r.dim = a.dim)
    ∧ (a.wf → b.wf → ∀ r, Tensor.addRefRef a b = Except.ok r → r.wf ∧ r.dim = a.dim)
    ∧ (a.wf → b.wf → ∀ r, Tensor.addRefVal a b = Except.ok r → r.wf ∧ r.dim = a.dim)
    ∧ (a.wf → b.wf → ∀ r, Tensor.addValRef a b = Except.ok r → r.wf ∧ r.dim = a.dim) := by
  have hnew : (Tensor.new (α := α) d).wf := by
    show (List.replicate (Dim.size d) (0 : α)).length = Dim.size d
    simp
  have hscalar : ∀ u : Tensor α N, u.wf → (Tensor.addAssignScalar u s).wf := by
    intro u hu
    show (u.data.map (· + s)).length = Dim.size u.dim
    rw [List.length_map]
    exact hu
  have hok : ∀ r, Tensor.add a b = Except.ok r → a.wf → b.wf → r.wf ∧ r.dim = a.dim := by
    intro r hr ha hb
    have h2 := Tensor.add_ok_inv a b r hr
    rw [h2]
    exact Tensor.addAssign_preserves_wf a b ha hb
  refine ⟨hnew, rfl, fun h => ⟨h, rfl⟩, fun h => ⟨hscalar t h, rfl⟩,
    fun h => ⟨hscalar t h, rfl⟩,
    fun ha hb => Tensor.addAssign_preserves_wf a b ha hb,
    fun ha hb => by
      rw [Tensor.addAssignRef_eq_addAssign]
      exact Tensor.addAssign_preserves_wf a b ha hb,
    fun ha hb r hr => hok r hr ha hb,
    fun ha hb r hr => hok r (by rw [← (addRef_forms_eq a b).1]; exact hr) ha hb,
    fun ha hb r hr => hok r (by rw [← (addRef_forms_eq a b).2.1]; exact hr) ha hb,
    fun ha hb r hr => hok r (by rw [← (addRef_forms_eq a b).2.2]; exact hr) ha hb⟩

/-- Witness for C7: the invariant after a concrete in-place addition and a
concrete clone. -/
theorem tensor_wf_invariant_witness :
    (Tensor.addAssign (⟨[1, 2], ![2]⟩ : Tensor Int 1) ⟨[5, 6], ![2]⟩).2.wf
    ∧ (Tensor.clone (⟨[1, 2], ![2]⟩ : Tensor Int 1)).wf := by
  obtain ⟨_, _, hclone, _, _, haa, _⟩ :=
    tensor_wf_invariant ![2] (⟨[1, 2], ![2]⟩ : Tensor Int 1)
      (⟨[1, 2], ![2]⟩ : Tensor Int 1) (⟨[5, 6], ![2]⟩ : Tensor Int 1) (0 : Int)
  exact ⟨(haa (by decide) (by decide)).1, (hclone (by decide)).1⟩

/-- C8: on shape-compatible operands the three reference overloads
(`&a + &b`, `&a + b`, `a + &b`) all return the very tensor the by-value
`a + b` returns — a new tensor built from a deep copy of the left operand's
shape and data with `b`'s elements added elementwise — and the by-reference
in-place form behaves identically to the by-value one; in this value
embedding the referenced operands `a` and `b` are never modified (`clone`
reproduces `a` exactly). -/
theorem add_ref_overloads {α : Type} [Add α] [Zero α] {N : Nat} (a b : Tensor α N)
    (hdim : a.dim = b.dim) (ha : a.wf) (hb : b.wf) :
    ∃ r, Tensor.add a b = Except.ok r
      ∧ Tensor.addRefRef a b = Except.ok r
      ∧ Tensor.addRefVal a b = Except.ok r
      ∧ Tensor.addValRef a b = Except.ok r
      ∧ Tensor.addAssignRef a b = Tensor.addAssign a b
      ∧ Tensor.clone a = a
      ∧ r.dim = a.dim
      ∧ r.data.length = a.data.length
      ∧ (∀ (i : Nat) (x y : α), a.data[i]? = some x → b.data[i]? = some y →
          r.data[i]? = some (x + y)) := by
  refine ⟨⟨a.data.zipWith (· + ·) b.data, a.dim⟩, ?_, ?_, ?_, ?_, rfl, rfl, rfl,
    zipWith_add_length a.data b.data (Tensor.data_length_eq a b hdim ha hb),
    fun i x y hx hy => zipWith_add_getElem _ _ _ _ _ hx hy⟩
  · rw [Tensor.add, Tensor.addAssign_ok a b hdim]
  · rw [(addRef_forms_eq a b).1, Tensor.add, Tensor.addAssign_ok a b hdim]
  · rw [(addRef_forms_eq a b).2.1, Tensor.add, Tensor.addAssign_ok a b hdim]
  · rw [(addRef_forms_eq a b).2.2, Tensor.add, Tensor.addAssign_ok a b hdim]

/-- Witness for C8: `&[1, 2] + &[5, 6]` succeeds with a 2-element result. -/
theorem add_ref_overloads_witness :
    ∃ r : Tensor Int 1,
      Tensor.addRefRef (⟨[1, 2], ![2]⟩ : Tensor Int 1) ⟨[5, 6], ![2]⟩ = Except.ok r
      ∧ r.data.length = 2 := by
  obtain ⟨r, _, h2, _, _, _, _, _, hlen, _⟩ :=
    add_ref_overloads (⟨[1, 2], ![2]⟩ : Tensor Int 1) ⟨[5, 6], ![2]⟩
      rfl (by decide) (by decide)
  exact ⟨r, h2, hlen⟩

/-- Counterexample to C9 as stated: coordinate `[0, 5]` is out of range on
axis 1 of shape `[2, 4]` (5 ≥ 4), yet its linear offset is `5`, which is in
range for the 8-element storage, so the storage access silently succeeds —
aliasing the element at coordinate `[1, 1]` — instead of being treated as a
fault. -/
theorem index_bounds_counterexample :
    ¬ ((![0, 5] : Dim 2) 1 < (![2, 4] : Dim 2) 1)
    ∧ Dim.index ![2, 4] ![0, 5] = 5
    ∧ Dim.size ![2, 4] = 8
    ∧ Tensor.get (Tensor.new (α := Int) ![2, 4]) ![0, 5] = some 0
    ∧ Tensor.get (Tensor.new (α := Int) ![2, 4]) ![0, 5]
        = Tensor.get (Tensor.new (α := Int) ![2, 4]) ![1, 1] := by
  decide

/-- C9 (amended): the shape's index operation performs no bounds validation —
it always computes the row-major offset formula; when the resulting linear
offset is out of range of the storage the storage access faults, and when it
is in range the access silently succeeds (an out-of-range coordinate can thus
alias another element rather than fault); in-bounds coordinates of a
well-formed tensor never fault. -/
theorem index_no_bounds_validation {α : Type} {N : Nat} (t : Tensor α N) (ind : Dim N) :
    (t.data.length ≤ t.dim.index ind → t.get ind = none)
    ∧ (t.dim.index ind < t.data.length → ∃ x, t.get ind = some x)
    ∧ (t.wf → (∀ k, ind k < t.dim k) → ∃ x, t.get ind = some x) := by
  refine ⟨fun h => ?_, fun h => ?_, fun hwf hc => ?_⟩
  · show t.data[t.dim.index ind]? = none
    exact List.getElem?_eq_none h
  · exact ⟨t.data[t.dim.index ind], List.getElem?_eq_getElem h⟩
  · have hoff : t.dim.index ind < t.data.length := by
      rw [hwf]
      exact Dim.index_lt_size t.dim ind hc
    exact ⟨t.data[t.dim.index ind], List.getElem?_eq_getElem hoff⟩

/-- Witness for C9 (amended): on a 1-element rank-1 tensor, coordinate `[3]`
faults and coordinate `[0]` succeeds. -/
theorem index_no_bounds_validation_witness :
    Tensor.get (⟨[(7 : Int)], ![1]⟩ : Tensor Int 1) ![3] = none
    ∧ ∃ x : Int, Tensor.get (⟨[(7 : Int)], ![1]⟩ : Tensor Int 1) ![0] = some x :=
  ⟨(index_no_bounds_validation (⟨[(7 : Int)], ![1]⟩ : Tensor Int 1) ![3]).1 (by decide),
   (index_no_bounds_validation (⟨[(7 : Int)], ![1]⟩ : Tensor Int 1) ![0]).2.2
     (by decide) (by decide)⟩

/-- Tensor-level reduction of the "repeated in-place addition is associative
in effect" property (spec §8): whenever the scalar addition satisfies
`(x + y) + y = x + (y + y)` — an instance of associativity, true of exact
arithmetic but not of IEEE floating-point addition — performing `a += b`
twice equals performing `a += (b.clone() + b.clone())` once. -/
theorem addAssign_twice_eq_of_assoc {α : Type} [Add α] [Zero α]
    (hassoc : ∀ x y : α, x + y + y = x + (y + y)) {N : Nat} (a b : Tensor α N)
    (hdim : a.dim = b.dim) :
    ∃ bb, Tensor.add (Tensor.clone b) (Tensor.clone b) = Except.ok bb
      ∧ ((Tensor.addAssign a b).2.addAssign b).2 = (Tensor.addAssign a bb).2 := by
  refine ⟨⟨b.data.zipWith (· + ·) b.data, b.dim⟩, ?_, ?_⟩
  · rw [Tensor.clone_eq, Tensor.add, Tensor.addAssign_ok b b rfl]
  · rw [Tensor.addAssign_ok a b hdim]
    have h1 : (⟨a.data.zipWith (· + ·) b.data, a.dim⟩ : Tensor α N).dim = b.dim := hdim
    rw [Tensor.addAssign_ok _ b h1]
    have h2 : a.dim = (⟨b.data.zipWith (· + ·) b.data, b.dim⟩ : Tensor α N).dim := hdim
    rw [Tensor.addAssign_ok a _ h2]
    have hdata : (a.data.zipWith (· + ·) b.data).zipWith (· + ·) b.data
        = a.data.zipWith (· + ·) (b.data.zipWith (· + ·) b.data) := by
      apply List.ext_getElem?
      intro i
      rw [List.getElem?_zipWith, List.getElem?_zipWith, List.getElem?_zipWith,
        List.getElem?_zipWith]
      cases ha : a.data[i]? <;> cases hb2 : b.data[i]? <;> simp [hassoc]
    rw [Tensor.mk.injEq]
    exact ⟨hdata, rfl⟩

/-- Witness for C5: writing `9` at coordinate `[0]` of a clone of `[1, 2]`
yields a tensor that reads back `9` there. -/
theorem tensor_clone_independent_witness :
    Tensor.get (⟨[(9 : Int), 2], ![2]⟩ : Tensor Int 1) ![0] = some 9 :=
  ((tensor_clone_independent (⟨[(1 : Int), 2], ![2]⟩ : Tensor Int 1)).2.2.2 ![0] 9
    (⟨[(9 : Int), 2], ![2]⟩ : Tensor Int 1) (by rfl)).1
